import Mathlib

/- Verification of the route-optimization core of the app-rutas repository:
haversine distance, nearest-neighbor route ordering, Google Maps URL
generation, total route distance, navigation arrival tracking, and Google
polyline decoding. JavaScript numbers are modeled by real numbers (the
comparison driven control flow is additionally kept generic so that NaN-like
comparison behavior is covered); JavaScript 32-bit bitwise operations are
modeled on Int with explicit conversions through 2^32. -/

open Real

/-- Geographic location, from the Location interface of src/src/types/index.ts. -/
structure Location where
  latitude : ℝ
  longitude : ℝ

/-- Stop status, from the RouteStop interface of src/src/types/index.ts. -/
inductive StopStatus where
  | pending
  | completed
  | skipped
deriving DecidableEq

/-- Delivery stop, from the RouteStop interface of src/src/types/index.ts. -/
structure RouteStop where
  id : String
  routeId : String
  clientId : String
  clientName : String
  clientSku : String
  address : String
  latitude : ℝ
  longitude : ℝ
  stopOrder : ℕ
  status : StopStatus

/-- Two-argument arctangent with the JavaScript Math.atan2 convention
(range (-pi, pi]; atan2 0 0 = 0). -/
noncomputable def atan2 (y x : ℝ) : ℝ :=
  if 0 < x then Real.arctan (y / x)
  else if x < 0 then
    (if 0 ≤ y then Real.arctan (y / x) + Real.pi else Real.arctan (y / x) - Real.pi)
  else if 0 < y then Real.pi / 2
  else if y < 0 then -(Real.pi / 2)
  else 0

/-- Haversine distance in kilometers, translated from calculateDistance in
src/unnamed/part_001 lines 4-14 (earth radius R = 6371 km). -/
noncomputable def calculateDistance (lat1 lon1 lat2 lon2 : ℝ) : ℝ :=
  let R : ℝ := 6371
  let dLat := (lat2 - lat1) * Real.pi / 180
  let dLon := (lon2 - lon1) * Real.pi / 180
  let a :=
    Real.sin (dLat / 2) * Real.sin (dLat / 2) +
    Real.cos (lat1 * Real.pi / 180) * Real.cos (lat2 * Real.pi / 180) *
    Real.sin (dLon / 2) * Real.sin (dLon / 2)
  let c := 2 * atan2 (Real.sqrt a) (Real.sqrt (1 - a))
  R * c

namespace DirectionsService

/-- Haversine distance in meters, translated from calculateDistance in
src/src/services/directionsService.ts lines 100-118 (earth radius
R = 6371e3 m). -/
noncomputable def calculateDistance (lat1 lon1 lat2 lon2 : ℝ) : ℝ :=
  let R : ℝ := 6371e3
  let phi1 := lat1 * Real.pi / 180
  let phi2 := lat2 * Real.pi / 180
  let dPhi := (lat2 - lat1) * Real.pi / 180
  let dLambda := (lon2 - lon1) * Real.pi / 180
  let a :=
    Real.sin (dPhi / 2) * Real.sin (dPhi / 2) +
    Real.cos phi1 * Real.cos phi2 * Real.sin (dLambda / 2) * Real.sin (dLambda / 2)
  let c := 2 * atan2 (Real.sqrt a) (Real.sqrt (1 - a))
  R * c

end DirectionsService

/-- Haversine distance in kilometers from a position to a stop, translated
from calculateDistanceToStop in src/src/screens/RouteMapScreen.tsx. -/
noncomputable def calculateDistanceToStop (fromLoc : Location) (stop : RouteStop) : ℝ :=
  let R : ℝ := 6371
  let dLat := (stop.latitude - fromLoc.latitude) * Real.pi / 180
  let dLon := (stop.longitude - fromLoc.longitude) * Real.pi / 180
  let a :=
    Real.sin (dLat / 2) * Real.sin (dLat / 2) +
    Real.cos (fromLoc.latitude * Real.pi / 180) * Real.cos (stop.latitude * Real.pi / 180) *
    Real.sin (dLon / 2) * Real.sin (dLon / 2)
  let c := 2 * atan2 (Real.sqrt a) (Real.sqrt (1 - a))
  R * c

theorem atan2_zero_one : atan2 0 1 = 0 := by
  unfold atan2
  rw [if_pos one_pos]
  simp

/-- The haversine formula at two equal points evaluates to exactly zero. -/
theorem calculateDistance_self (lat lon : ℝ) : calculateDistance lat lon lat lon = 0 := by
  unfold calculateDistance
  simp [sub_self, atan2_zero_one]

/-- The haversine formula is symmetric in its two points. -/
theorem calculateDistance_symm (lat1 lon1 lat2 lon2 : ℝ) :
    calculateDistance lat1 lon1 lat2 lon2 = calculateDistance lat2 lon2 lat1 lon1 := by
  simp only [calculateDistance]
  have key : ∀ u v : ℝ,
      Real.sin ((u - v) * Real.pi / 180 / 2) * Real.sin ((u - v) * Real.pi / 180 / 2) =
      Real.sin ((v - u) * Real.pi / 180 / 2) * Real.sin ((v - u) * Real.pi / 180 / 2) := by
    intro u v
    have h : (u - v) * Real.pi / 180 / 2 = -((v - u) * Real.pi / 180 / 2) := by ring
    rw [h, Real.sin_neg, neg_mul_neg]
  have key2 : ∀ p q u v : ℝ,
      Real.cos p * Real.cos q * Real.sin ((u - v) * Real.pi / 180 / 2) *
        Real.sin ((u - v) * Real.pi / 180 / 2) =
      Real.cos q * Real.cos p * Real.sin ((v - u) * Real.pi / 180 / 2) *
        Real.sin ((v - u) * Real.pi / 180 / 2) := by
    intro p q u v
    have h : (u - v) * Real.pi / 180 / 2 = -((v - u) * Real.pi / 180 / 2) := by ring
    rw [h, Real.sin_neg]
    ring
  rw [key lat2 lat1,
    key2 (lat1 * Real.pi / 180) (lat2 * Real.pi / 180) lon2 lon1]

/-- The meters haversine of the directions service is exactly 1000 times the
kilometers haversine of the route optimizer. -/
theorem directionsDistance_eq_1000_mul (lat1 lon1 lat2 lon2 : ℝ) :
    DirectionsService.calculateDistance lat1 lon1 lat2 lon2 =
      1000 * calculateDistance lat1 lon1 lat2 lon2 := by
  simp only [DirectionsService.calculateDistance, calculateDistance]
  norm_num
  ring

/-- The forEach scan of optimizeRoute in src/unnamed/part_001 lines 33-45:
i is the index of the next pool entry, bestIdx and bestDist the
nearestIndex and nearestDistance accumulators. The comparison lt models the
JavaScript test `distance < nearestDistance`; it is kept generic in the
distance codomain D so that every comparison behavior of JavaScript numbers
(including the all-false behavior when every distance is NaN) is covered. -/
def scanGo {D : Type} (lt : D → D → Bool) (dist : RouteStop → D) :
    Nat → Nat → D → List RouteStop → Nat × D
  | _, bestIdx, bestDist, [] => (bestIdx, bestDist)
  | i, bestIdx, bestDist, s :: rest =>
    if lt (dist s) bestDist then scanGo lt dist (i + 1) i (dist s) rest
    else scanGo lt dist (i + 1) bestIdx bestDist rest

/-- The full nearest-stop scan: nearestIndex starts at 0 and nearestDistance
at Infinity (the top element of D). -/
def scanNearest {D : Type} (lt : D → D → Bool) (top : D) (dist : RouteStop → D)
    (pool : List RouteStop) : Nat × D :=
  scanGo lt dist 0 0 top pool

theorem scanGo_fst_lt {D : Type} (lt : D → D → Bool) (dist : RouteStop → D) :
    ∀ (u : List RouteStop) (i bestIdx : Nat) (bestDist : D) (n : Nat),
      bestIdx < n → i + u.length ≤ n → (scanGo lt dist i bestIdx bestDist u).1 < n := by
  intro u
  induction u with
  | nil =>
    intro i bi bd n hb _
    simpa [scanGo] using hb
  | cons s rest ih =>
    intro i bi bd n hb hlen
    simp only [scanGo, List.length_cons] at *
    by_cases h : lt (dist s) bd = true
    · rw [if_pos h]
      exact ih (i + 1) i (dist s) n (by omega) (by omega)
    · rw [if_neg h]
      exact ih (i + 1) bi bd n hb (by omega)

theorem scanNearest_fst_lt {D : Type} (lt : D → D → Bool) (top : D)
    (dist : RouteStop → D) (pool : List RouteStop) (h : pool ≠ []) :
    (scanNearest lt top dist pool).1 < pool.length :=
  scanGo_fst_lt lt dist pool 0 0 top pool.length
    (List.length_pos.mpr h) (by omega)

/-- The while loop of optimizeRoute in src/unnamed/part_001 lines 28-54:
scan the unvisited pool for the nearest stop, splice it out of the pool,
append it to the optimized output and move the current location to its
coordinates. The out-of-range match branch returns the empty list;
scanNearest_fst_lt shows it is never taken. -/
def optimizeLoop {D : Type} (lt : D → D → Bool) (top : D)
    (dist : Location → RouteStop → D) :
    Location → List RouteStop → List RouteStop
  | _, [] => []
  | current, s :: rest =>
    match h : (s :: rest).get? (scanNearest lt top (dist current) (s :: rest)).1 with
    | some nearest =>
      nearest ::
        optimizeLoop lt top dist ⟨nearest.latitude, nearest.longitude⟩
          ((s :: rest).eraseIdx (scanNearest lt top (dist current) (s :: rest)).1)
    | none => []
termination_by _ u => u.length
decreasing_by
  obtain ⟨hlt, -⟩ := List.get?_eq_some.mp h
  simp only [List.length_eraseIdx, if_pos hlt]
  omega

/-- Nearest-neighbor route optimization, translated from optimizeRoute in
src/unnamed/part_001 lines 17-57, generic in the distance codomain. -/
def optimizeRoute {D : Type} (lt : D → D → Bool) (top : D)
    (dist : Location → RouteStop → D)
    (stops : List RouteStop) (startLocation : Option Location) : List RouteStop :=
  if stops.length ≤ 1 then stops
  else
    let currentLocation : Location :=
      match startLocation with
      | some l => l
      | none =>
        match stops with
        | s0 :: _ => ⟨s0.latitude, s0.longitude⟩
        | [] => ⟨0, 0⟩
    optimizeLoop lt top dist currentLocation stops

theorem cons_eraseIdx_perm {α : Type} {l : List α} {i : Nat} (h : i < l.length) :
    (l.get ⟨i, h⟩ :: l.eraseIdx i).Perm l := by
  rw [List.eraseIdx_eq_take_drop_succ]
  conv_rhs => rw [← List.take_append_drop i l, List.drop_eq_getElem_cons h]
  simp only [List.get_eq_getElem]
  exact List.perm_middle.symm

theorem optimizeLoop_perm {D : Type} (lt : D → D → Bool) (top : D)
    (dist : Location → RouteStop → D) :
    ∀ (n : Nat) (u : List RouteStop), u.length = n → ∀ current : Location,
      (optimizeLoop lt top dist current u).Perm u := by
  intro n
  induction n using Nat.strong_induction_on with
  | _ n ih =>
    intro u hlen current
    match u, hlen with
    | [], _ => simp [optimizeLoop]
    | s :: rest, hlen =>
      have hj : (scanNearest lt top (dist current) (s :: rest)).1 < (s :: rest).length :=
        scanNearest_fst_lt lt top (dist current) (s :: rest) (by simp)
      rw [optimizeLoop]
      split
      case _ nearest hsome =>
        obtain ⟨hlt, hget⟩ := List.get?_eq_some.mp hsome
        have herase : ((s :: rest).eraseIdx
            (scanNearest lt top (dist current) (s :: rest)).1).length < n := by
          simp only [List.length_eraseIdx, if_pos hlt]
          omega
        exact (List.Perm.cons nearest (ih _ herase _ rfl _)).trans
          (hget ▸ cons_eraseIdx_perm hlt)
      case _ hnone =>
        have := List.get?_eq_none.mp hnone
        omega

/-- C1: optimizeRoute always returns a permutation of its input, with the
same length and the same multiset of stop ids, for every distance codomain
and every comparison behavior (so in particular also when every comparison
is false, as happens in JavaScript when every computed distance is NaN);
the recursion terminates because each loop iteration splices exactly one
stop out of the unvisited pool. -/
theorem optimizeRoute_perm :
    ∀ (D : Type) (lt : D → D → Bool) (top : D) (dist : Location → RouteStop → D)
      (stops : List RouteStop) (startLocation : Option Location),
      (optimizeRoute lt top dist stops startLocation).Perm stops ∧
      (optimizeRoute lt top dist stops startLocation).length = stops.length ∧
      ((optimizeRoute lt top dist stops startLocation).map RouteStop.id).Perm
        (stops.map RouteStop.id) := by
  intro D lt top dist stops startLocation
  have hperm : (optimizeRoute lt top dist stops startLocation).Perm stops := by
    unfold optimizeRoute
    by_cases h : stops.length ≤ 1
    · rw [if_pos h]
    · rw [if_neg h]
      exact optimizeLoop_perm lt top dist stops.length stops rfl _
  exact ⟨hperm, hperm.length_eq, hperm.map _⟩

/-- The comparison on extended reals modeling the JavaScript `<` between
non-NaN numbers (Infinity included). -/
noncomputable def eltb (a b : EReal) : Bool := decide (a < b)

/-- The real-valued distance the optimizer computes between the current
location and a candidate stop (the kilometers haversine of
src/unnamed/part_001 lines 34-39). -/
noncomputable def stopDist (current : Location) (s : RouteStop) : ℝ :=
  calculateDistance current.latitude current.longitude s.latitude s.longitude

/-- The same distance as an extended real, so that the Infinity used to seed
nearestDistance is representable as the top element. -/
noncomputable def stopDistE (current : Location) (s : RouteStop) : EReal :=
  ((stopDist current s : ℝ) : EReal)

/-- optimizeRoute of src/unnamed/part_001 instantiated with its actual
haversine distance. -/
noncomputable def optimizeRouteKm (stops : List RouteStop)
    (startLocation : Option Location) : List RouteStop :=
  optimizeRoute eltb ⊤ stopDistE stops startLocation

/-- The while loop of optimizeRoute instantiated with its actual haversine
distance. -/
noncomputable def optimizeLoopKm (current : Location) (u : List RouteStop) :
    List RouteStop :=
  optimizeLoop eltb ⊤ stopDistE current u

theorem eltb_iff (a b : EReal) : eltb a b = true ↔ a < b := by
  simp [eltb]

/-- What the forEach scan computes: either the accumulator pair survives
(every pool distance fails the strict comparison), or the result is the
first index of the pool attaining the minimum distance, with a value
strictly below the incoming accumulator, weakly below every pool value, and
strictly below every pool value at an earlier index. -/
theorem scanGo_char {D : Type} [LinearOrder D] (lt : D → D → Bool)
    (hlt : ∀ a b : D, lt a b = true ↔ a < b) (f : RouteStop → D) :
    ∀ (u : List RouteStop) (i bi : Nat) (bd : D),
      (scanGo lt f i bi bd u = (bi, bd) ∧
        ∀ (k : Nat) (hk : k < u.length), bd ≤ f (u.get ⟨k, hk⟩)) ∨
      (∃ (k : Nat) (hk : k < u.length),
        scanGo lt f i bi bd u = (i + k, f (u.get ⟨k, hk⟩)) ∧
        f (u.get ⟨k, hk⟩) < bd ∧
        (∀ (m : Nat) (hm : m < u.length), f (u.get ⟨k, hk⟩) ≤ f (u.get ⟨m, hm⟩)) ∧
        (∀ (m : Nat) (hm : m < k),
          f (u.get ⟨k, hk⟩) < f (u.get ⟨m, Nat.lt_trans hm hk⟩))) := by
  intro u
  induction u with
  | nil =>
    intro i bi bd
    left
    refine ⟨rfl, ?_⟩
    intro k hk
    simp at hk
  | cons s rest ih =>
    intro i bi bd
    by_cases h : lt (f s) bd = true
    · have hfs : f s < bd := (hlt _ _).mp h
      rcases ih (i + 1) i (f s) with ⟨heq, hmin⟩ | ⟨k, hk, heq, hlt2, hmin, hstrict⟩
      · right
        refine ⟨0, by simp, ?_, ?_, ?_, ?_⟩
        · simp only [scanGo, if_pos h, heq, Nat.add_zero, List.get_eq_getElem,
            List.getElem_cons_zero]
        · simpa using hfs
        · intro m hm
          match m, hm with
          | 0, _ => simp
          | m + 1, hm =>
            simp only [List.get_eq_getElem, List.getElem_cons_zero,
              List.getElem_cons_succ]
            exact hmin m (by simpa using hm)
        · intro m hm
          omega
      · right
        have hk1 : k + 1 < (s :: rest).length := by simpa using Nat.succ_lt_succ hk
        refine ⟨k + 1, hk1, ?_, ?_, ?_, ?_⟩
        · simp only [scanGo, if_pos h, heq, List.get_eq_getElem, List.getElem_cons_succ]
          congr 1
          omega
        · simp only [List.get_eq_getElem, List.getElem_cons_succ]
          exact lt_trans hlt2 hfs
        · intro m hm
          match m, hm with
          | 0, _ =>
            simp only [List.get_eq_getElem, List.getElem_cons_succ, List.getElem_cons_zero]
            exact le_of_lt hlt2
          | m + 1, hm =>
            simp only [List.get_eq_getElem, List.getElem_cons_succ]
            exact hmin m (by simpa using hm)
        · intro m hm
          match m, hm with
          | 0, _ =>
            simp only [List.get_eq_getElem, List.getElem_cons_succ, List.getElem_cons_zero]
            exact hlt2
          | m + 1, hm =>
            simp only [List.get_eq_getElem, List.getElem_cons_succ]
            exact hstrict m (by omega)
    · have hfs : bd ≤ f s := not_lt.mp (fun hc => h ((hlt _ _).mpr hc))
      rcases ih (i + 1) bi bd with ⟨heq, hmin⟩ | ⟨k, hk, heq, hlt2, hmin, hstrict⟩
      · left
        refine ⟨by simp only [scanGo, if_neg h, heq], ?_⟩
        intro m hm
        match m, hm with
        | 0, _ => simpa using hfs
        | m + 1, hm =>
          simp only [List.get_eq_getElem, List.getElem_cons_succ]
          exact hmin m (by simpa using hm)
      · right
        have hk1 : k + 1 < (s :: rest).length := by simpa using Nat.succ_lt_succ hk
        refine ⟨k + 1, hk1, ?_, ?_, ?_, ?_⟩
        · simp only [scanGo, if_neg h, heq, List.get_eq_getElem, List.getElem_cons_succ]
          congr 1
          omega
        · simp only [List.get_eq_getElem, List.getElem_cons_succ]
          exact hlt2
        · intro m hm
          match m, hm with
          | 0, _ =>
            simp only [List.get_eq_getElem, List.getElem_cons_succ, List.getElem_cons_zero]
            exact le_trans (le_of_lt hlt2) hfs
          | m + 1, hm =>
            simp only [List.get_eq_getElem, List.getElem_cons_succ]
            exact hmin m (by simpa using hm)
        · intro m hm
          match m, hm with
          | 0, _ =>
            simp only [List.get_eq_getElem, List.getElem_cons_succ, List.getElem_cons_zero]
            exact lt_of_lt_of_le hlt2 hfs
          | m + 1, hm =>
            simp only [List.get_eq_getElem, List.getElem_cons_succ]
            exact hstrict m (by omega)

/-- The kilometers haversine between two points on the equator, for a
longitude difference of less than 180 degrees, is exactly the arc length
6371 * ((lon2 - lon1) * pi / 180). -/
theorem calculateDistance_equator (a b : ℝ) (h0 : a ≤ b) (h1 : b - a < 180) :
    calculateDistance 0 a 0 b = 6371 * ((b - a) * Real.pi / 180) := by
  have hpi := Real.pi_pos
  have ht0 : 0 ≤ (b - a) * Real.pi / 360 := by
    have : 0 ≤ b - a := by linarith
    positivity
  have ht1 : (b - a) * Real.pi / 360 < Real.pi / 2 := by
    nlinarith [mul_pos (sub_pos.mpr h1) hpi]
  simp only [calculateDistance]
  have e1 : ((0 : ℝ) - 0) * Real.pi / 180 / 2 = 0 := by ring
  have e2 : (b - a) * Real.pi / 180 / 2 = (b - a) * Real.pi / 360 := by ring
  have e3 : (0 : ℝ) * Real.pi / 180 = 0 := by ring
  rw [e1, e2, e3, Real.sin_zero, Real.cos_zero]
  have ha : (0 : ℝ) * 0 + 1 * 1 * Real.sin ((b - a) * Real.pi / 360) *
      Real.sin ((b - a) * Real.pi / 360) = Real.sin ((b - a) * Real.pi / 360) ^ 2 := by
    ring
  rw [ha]
  have hs : (1 : ℝ) - Real.sin ((b - a) * Real.pi / 360) ^ 2 =
      Real.cos ((b - a) * Real.pi / 360) ^ 2 := by
    have := Real.sin_sq_add_cos_sq ((b - a) * Real.pi / 360)
    linarith
  rw [hs]
  rw [Real.sqrt_sq (Real.sin_nonneg_of_nonneg_of_le_pi ht0 (by linarith))]
  rw [Real.sqrt_sq (Real.cos_nonneg_of_mem_Icc ⟨by linarith, le_of_lt ht1⟩)]
  have hcos : 0 < Real.cos ((b - a) * Real.pi / 360) :=
    Real.cos_pos_of_mem_Ioo ⟨by linarith, ht1⟩
  unfold atan2
  rw [if_pos hcos, ← Real.tan_eq_sin_div_cos, Real.arctan_tan (by linarith) ht1]
  ring

/-- A stop with the given id and coordinates (the metadata fields are
irrelevant to the algorithms). -/
def mkStop (i : String) (lat lon : ℝ) : RouteStop :=
  ⟨i, "r1", "c1", "client", "sku", "addr", lat, lon, 0, StopStatus.pending⟩

/-- Stop A at (0, 0) of the testable property of the spec. -/
def stopA : RouteStop := mkStop "A" 0 0

/-- Stop B at (0, 1) of the testable property of the spec. -/
def stopB : RouteStop := mkStop "B" 0 1

/-- Stop C at (0, 3) of the testable property of the spec. -/
def stopC : RouteStop := mkStop "C" 0 3

/-- On a nonempty pool with the haversine distances the scan returns the
first index attaining the minimum distance. -/
theorem scanNearestKm_first_argmin (current : Location) (u : List RouteStop)
    (hu : u ≠ []) :
    ∃ (k : Nat) (hk : k < u.length),
      (scanNearest eltb ⊤ (stopDistE current) u).1 = k ∧
      (∀ (m : Nat) (hm : m < u.length),
        stopDist current (u.get ⟨k, hk⟩) ≤ stopDist current (u.get ⟨m, hm⟩)) ∧
      (∀ (m : Nat) (hm : m < k),
        stopDist current (u.get ⟨k, hk⟩) <
          stopDist current (u.get ⟨m, Nat.lt_trans hm hk⟩)) := by
  rcases scanGo_char eltb eltb_iff (stopDistE current) u 0 0 ⊤ with
    ⟨_, hmin⟩ | ⟨k, hk, heq, _, hmin, hstrict⟩
  · exfalso
    have h0 : 0 < u.length := List.length_pos.mpr hu
    exact absurd (hmin 0 h0) (not_le.mpr (EReal.coe_lt_top (stopDist current (u.get ⟨0, h0⟩))))
  · refine ⟨k, hk, ?_, ?_, ?_⟩
    · have := congrArg Prod.fst heq
      simpa [scanNearest] using this
    · intro m hm
      have := hmin m hm
      simpa [stopDistE, EReal.coe_le_coe_iff] using this
    · intro m hm
      have := hstrict m hm
      simpa [stopDistE, EReal.coe_lt_coe_iff] using this

/-- One step of the optimization loop with the haversine distances: the
first minimum-distance stop of the pool is appended and the current
location moves to its coordinates. -/
theorem optimizeLoopKm_step (current : Location) (u : List RouteStop) (hu : u ≠ []) :
    ∃ (k : Nat) (hk : k < u.length),
      (∀ (m : Nat) (hm : m < u.length),
        stopDist current (u.get ⟨k, hk⟩) ≤ stopDist current (u.get ⟨m, hm⟩)) ∧
      (∀ (m : Nat) (hm : m < k),
        stopDist current (u.get ⟨k, hk⟩) <
          stopDist current (u.get ⟨m, Nat.lt_trans hm hk⟩)) ∧
      optimizeLoopKm current u =
        u.get ⟨k, hk⟩ ::
          optimizeLoopKm ⟨(u.get ⟨k, hk⟩).latitude, (u.get ⟨k, hk⟩).longitude⟩
            (u.eraseIdx k) := by
  obtain ⟨k, hk, hfst, hmin, hstrict⟩ := scanNearestKm_first_argmin current u hu
  refine ⟨k, hk, hmin, hstrict, ?_⟩
  match u, hu, hk, hfst with
  | s :: rest, _, hk, hfst =>
    unfold optimizeLoopKm
    rw [optimizeLoop]
    have hget : (s :: rest).get? (scanNearest eltb ⊤ (stopDistE current) (s :: rest)).1 =
        some ((s :: rest).get ⟨k, hk⟩) := by
      rw [hfst]
      exact List.get?_eq_get hk
    split
    case _ nearest hsome =>
      rw [hget] at hsome
      obtain rfl : nearest = (s :: rest).get ⟨k, hk⟩ := by
        injection hsome with h
        exact h.symm
      rw [hfst]
    case _ hnone =>
      exact absurd (hget.symm.trans hnone) (by simp)

/-- C2: each step of optimizeRoute appends the stop of the remaining
unvisited pool whose haversine distance from the current location is
minimal, ties broken by the lowest index in scan order, then moves the
current location to that stop; and with stops A(0,0), B(0,1), C(0,3) and
start at the origin the output order is exactly [A, B, C]. -/
theorem optimizeRoute_nearest_step :
    (∀ (current : Location) (u : List RouteStop), u ≠ [] →
      ∃ (k : Nat) (hk : k < u.length),
        (∀ (m : Nat) (hm : m < u.length),
          stopDist current (u.get ⟨k, hk⟩) ≤ stopDist current (u.get ⟨m, hm⟩)) ∧
        (∀ (m : Nat) (hm : m < k),
          stopDist current (u.get ⟨k, hk⟩) <
            stopDist current (u.get ⟨m, Nat.lt_trans hm hk⟩)) ∧
        optimizeLoopKm current u =
          u.get ⟨k, hk⟩ ::
            optimizeLoopKm ⟨(u.get ⟨k, hk⟩).latitude, (u.get ⟨k, hk⟩).longitude⟩
              (u.eraseIdx k)) ∧
    optimizeRouteKm [stopA, stopB, stopC] (some ⟨0, 0⟩) = [stopA, stopB, stopC] := by
  refine ⟨optimizeLoopKm_step, ?_⟩
  have hpi := Real.pi_pos
  have dAA : stopDist ⟨0, 0⟩ stopA = 0 := calculateDistance_self 0 0
  have dAB : stopDist ⟨0, 0⟩ stopB = 6371 * (Real.pi / 180) := by
    show calculateDistance 0 0 0 1 = _
    rw [calculateDistance_equator 0 1 (by norm_num) (by norm_num)]
    ring
  have dAC : stopDist ⟨0, 0⟩ stopC = 6371 * (3 * Real.pi / 180) := by
    show calculateDistance 0 0 0 3 = _
    rw [calculateDistance_equator 0 3 (by norm_num) (by norm_num)]
    ring
  have hB_pos : (0 : ℝ) < 6371 * (Real.pi / 180) := by positivity
  have hC_pos : (0 : ℝ) < 6371 * (3 * Real.pi / 180) := by positivity
  have hBC : 6371 * (Real.pi / 180) < 6371 * (3 * Real.pi / 180) := by nlinarith
  have hA_lat : stopA.latitude = 0 := rfl
  have hA_lon : stopA.longitude = 0 := rfl
  have hB_lat : stopB.latitude = 0 := rfl
  have hB_lon : stopB.longitude = 1 := rfl
  -- step 1: from the origin, stop A (distance 0) is chosen
  obtain ⟨k1, hk1, hmin1, hstrict1, heq1⟩ :=
    optimizeLoopKm_step ⟨0, 0⟩ [stopA, stopB, stopC] (by simp)
  have hk1' : k1 < 3 := by simpa using hk1
  have hk10 : k1 = 0 := by
    rcases k1 with _ | _ | _ | n
    · rfl
    · exfalso
      have h := hstrict1 0 (by omega)
      simp only [List.get_eq_getElem, List.getElem_cons_zero, List.getElem_cons_succ] at h
      rw [dAB, dAA] at h
      linarith
    · exfalso
      have h := hstrict1 0 (by omega)
      simp only [List.get_eq_getElem, List.getElem_cons_zero, List.getElem_cons_succ] at h
      rw [dAC, dAA] at h
      linarith
    · omega
  subst hk10
  simp only [List.get_eq_getElem, List.getElem_cons_zero, List.eraseIdx,
    hA_lat, hA_lon] at heq1
  -- step 2: from (0,0), stop B (one degree away) beats stop C (three degrees)
  obtain ⟨k2, hk2, hmin2, hstrict2, heq2⟩ :=
    optimizeLoopKm_step ⟨0, 0⟩ [stopB, stopC] (by simp)
  have hk2' : k2 < 2 := by simpa using hk2
  have hk20 : k2 = 0 := by
    rcases k2 with _ | _ | n
    · rfl
    · exfalso
      have h := hstrict2 0 (by omega)
      simp only [List.get_eq_getElem, List.getElem_cons_zero, List.getElem_cons_succ] at h
      rw [dAC, dAB] at h
      linarith
    · omega
  subst hk20
  simp only [List.get_eq_getElem, List.getElem_cons_zero, List.eraseIdx,
    hB_lat, hB_lon] at heq2
  -- step 3: only stop C remains
  obtain ⟨k3, hk3, hmin3, hstrict3, heq3⟩ :=
    optimizeLoopKm_step ⟨0, 1⟩ [stopC] (by simp)
  have hk30 : k3 = 0 := by
    have : k3 < 1 := by simpa using hk3
    omega
  subst hk30
  simp only [List.get_eq_getElem, List.getElem_cons_zero, List.eraseIdx] at heq3
  have hnil : optimizeLoopKm ⟨stopC.latitude, stopC.longitude⟩ [] = [] := by
    simp [optimizeLoopKm, optimizeLoop]
  show optimizeRouteKm [stopA, stopB, stopC] (some ⟨0, 0⟩) = [stopA, stopB, stopC]
  unfold optimizeRouteKm optimizeRoute
  rw [if_neg (by simp)]
  show optimizeLoopKm ⟨0, 0⟩ [stopA, stopB, stopC] = [stopA, stopB, stopC]
  rw [heq1, heq2, heq3, hnil]

/-- C9: the haversine distance of the route optimizer satisfies, over exact
real arithmetic, distance(p, p) = 0 exactly and symmetry
distance(a, b) = distance(b, a) exactly. -/
theorem calculateDistance_self_and_symm :
    (∀ lat lon : ℝ, calculateDistance lat lon lat lon = 0) ∧
    (∀ lat1 lon1 lat2 lon2 : ℝ,
      calculateDistance lat1 lon1 lat2 lon2 = calculateDistance lat2 lon2 lat1 lon1) :=
  ⟨calculateDistance_self, calculateDistance_symm⟩

/-- C4 (amended): the two embedded haversine implementations are not equal
as functions; they agree exactly up to the unit factor: the directions
service distance (meters, R = 6371e3) is 1000 times the route optimizer
distance (kilometers, R = 6371) on every pair of points. -/
theorem distance_unit_convention :
    ∀ lat1 lon1 lat2 lon2 : ℝ,
      DirectionsService.calculateDistance lat1 lon1 lat2 lon2 =
        1000 * calculateDistance lat1 lon1 lat2 lon2 :=
  directionsDistance_eq_1000_mul

/-- C4 counterexample: from (0,0) to (0,1) the directions service distance
and the route optimizer distance differ, so the two Distance Engine
implementations are not equal as functions. -/
theorem distance_unit_mismatch :
    DirectionsService.calculateDistance 0 0 0 1 ≠ calculateDistance 0 0 0 1 := by
  rw [directionsDistance_eq_1000_mul]
  have h : calculateDistance 0 0 0 1 = 6371 * ((1 - 0) * Real.pi / 180) :=
    calculateDistance_equator 0 1 (by norm_num) (by norm_num)
  rw [h]
  have hpi := Real.pi_pos
  intro hc
  nlinarith

/-- The forEach accumulation of calculateTotalDistance in
src/unnamed/part_001 lines 94-102: add the distance from the current
location to the next stop, then move the current location to that stop. -/
noncomputable def totalGo (current : Location) : List RouteStop → ℝ
  | [] => 0
  | s :: rest =>
    calculateDistance current.latitude current.longitude s.latitude s.longitude +
      totalGo ⟨s.latitude, s.longitude⟩ rest

/-- Total route distance, translated from calculateTotalDistance in
src/unnamed/part_001 lines 85-105. -/
noncomputable def calculateTotalDistance (stops : List RouteStop)
    (startLocation : Option Location) : ℝ :=
  match stops with
  | [] => 0
  | s0 :: rest =>
    totalGo
      (match startLocation with
        | some l => l
        | none => ⟨s0.latitude, s0.longitude⟩)
      (s0 :: rest)

/-- Specification-side description of the total: the sum of haversine
distances along consecutive pairs of a path of locations. -/
noncomputable def legsSum (points : List Location) : ℝ :=
  ((points.zip points.tail).map
    (fun p => calculateDistance p.1.latitude p.1.longitude p.2.latitude p.2.longitude)).sum

theorem totalGo_eq_legsSum (current : Location) (l : List RouteStop) :
    totalGo current l =
      legsSum (current :: l.map (fun s => ⟨s.latitude, s.longitude⟩)) := by
  induction l generalizing current with
  | nil => simp [totalGo, legsSum]
  | cons s rest ih =>
    simp only [totalGo, legsSum, List.map_cons, List.tail_cons, List.zip_cons_cons,
      List.map_cons, List.sum_cons] at *
    rw [ih ⟨s.latitude, s.longitude⟩]

/-- C6: calculateTotalDistance is 0 on the empty list; on a single stop
with no start location it is 0 (the current location defaults to the stop
itself, and distance(s, s) = 0); and in general it is the sum of haversine
distances along consecutive pairs starting from the start location if
given, else from the first stop. -/
theorem calculateTotalDistance_spec :
    (∀ startLocation : Option Location, calculateTotalDistance [] startLocation = 0) ∧
    (∀ s : RouteStop, calculateTotalDistance [s] none = 0) ∧
    (∀ (s0 : RouteStop) (rest : List RouteStop) (startLocation : Option Location),
      calculateTotalDistance (s0 :: rest) startLocation =
        legsSum
          ((match startLocation with
            | some l => l
            | none => ⟨s0.latitude, s0.longitude⟩) ::
            (s0 :: rest).map (fun s => ⟨s.latitude, s.longitude⟩))) := by
  refine ⟨fun _ => rfl, ?_, ?_⟩
  · intro s
    show totalGo ⟨s.latitude, s.longitude⟩ [s] = 0
    simp [totalGo, calculateDistance_self]
  · intro s0 rest startLocation
    show totalGo _ (s0 :: rest) = _
    rw [totalGo_eq_legsSum]

/-- Navigation tracker state relevant to the arrival effect of
src/src/screens/RouteMapScreen.tsx: the current stop index and the
navigating flag. -/
structure NavState where
  currentStopIndex : Nat
  isNavigating : Bool

/-- One firing of the arrival effect of src/src/screens/RouteMapScreen.tsx
lines 513-546 on a position update: while navigating, if the haversine
distance from the position to the current stop is below 0.1 km and the
current index is not the last, the index advances by one (both alert
choices advance it; completing the stop is a repository side effect outside
the tracker state). -/
noncomputable def arrivalStep (stopsToUse : List RouteStop) (st : NavState)
    (pos : Location) : NavState :=
  if !st.isNavigating then st
  else if stopsToUse.length = 0 then st
  else
    match stopsToUse.get? st.currentStopIndex with
    | none => st
    | some currentStop =>
      if calculateDistanceToStop pos currentStop < 0.1 ∧
          st.currentStopIndex < stopsToUse.length - 1 then
        { st with currentStopIndex := st.currentStopIndex + 1 }
      else st

/-- C7: a position update never decreases the current stop index; when the
index changes it advances by exactly one and only because the arrival
condition held (navigating, distance to the current stop below 0.1 km, and
the index not the last); an index within the stop range keeps its bound;
and over any sequence of position updates the index is monotone. -/
theorem arrivalStep_monotone :
    (∀ (stops : List RouteStop) (st : NavState) (pos : Location),
      st.currentStopIndex ≤ (arrivalStep stops st pos).currentStopIndex) ∧
    (∀ (stops : List RouteStop) (st : NavState) (pos : Location),
      (arrivalStep stops st pos).currentStopIndex = st.currentStopIndex ∨
        ((arrivalStep stops st pos).currentStopIndex = st.currentStopIndex + 1 ∧
          st.isNavigating = true ∧
          (∃ h : st.currentStopIndex < stops.length,
            calculateDistanceToStop pos (stops.get ⟨st.currentStopIndex, h⟩) < 0.1) ∧
          st.currentStopIndex < stops.length - 1)) ∧
    (∀ (stops : List RouteStop) (st : NavState) (pos : Location),
      st.currentStopIndex ≤ stops.length - 1 →
      (arrivalStep stops st pos).currentStopIndex ≤ stops.length - 1) ∧
    (∀ (stops : List RouteStop) (st : NavState) (updates : List Location),
      st.currentStopIndex ≤ (updates.foldl (arrivalStep stops) st).currentStopIndex) := by
  have step : ∀ (stops : List RouteStop) (st : NavState) (pos : Location),
      (arrivalStep stops st pos).currentStopIndex = st.currentStopIndex ∨
        ((arrivalStep stops st pos).currentStopIndex = st.currentStopIndex + 1 ∧
          st.isNavigating = true ∧
          (∃ h : st.currentStopIndex < stops.length,
            calculateDistanceToStop pos (stops.get ⟨st.currentStopIndex, h⟩) < 0.1) ∧
          st.currentStopIndex < stops.length - 1) := by
    intro stops st pos
    unfold arrivalStep
    by_cases hn : st.isNavigating
    · rw [if_neg (by simp [hn])]
      by_cases hz : stops.length = 0
      · rw [if_pos hz]
        left
        rfl
      · rw [if_neg hz]
        cases hget : stops.get? st.currentStopIndex with
        | none => left; rfl
        | some currentStop =>
          dsimp only
          by_cases hc : calculateDistanceToStop pos currentStop < 0.1 ∧
              st.currentStopIndex < stops.length - 1
          · rw [if_pos hc]
            right
            obtain ⟨hidx, hget'⟩ := List.get?_eq_some.mp hget
            refine ⟨rfl, hn, ⟨hidx, ?_⟩, hc.2⟩
            rw [hget']
            exact hc.1
          · rw [if_neg hc]
            left
            rfl
    · rw [if_pos (by simp [hn])]
      left
      rfl
  have mono : ∀ (stops : List RouteStop) (st : NavState) (pos : Location),
      st.currentStopIndex ≤ (arrivalStep stops st pos).currentStopIndex := by
    intro stops st pos
    rcases step stops st pos with h | ⟨h, -⟩ <;> omega
  refine ⟨mono, step, ?_, ?_⟩
  · intro stops st pos hb
    rcases step stops st pos with h | ⟨h, -, -, hlast⟩ <;> omega
  · intro stops st updates
    induction updates generalizing st with
    | nil => simp
    | cons p rest ih =>
      calc st.currentStopIndex ≤ (arrivalStep stops st p).currentStopIndex :=
            mono stops st p
        _ ≤ _ := by simpa using ih (arrivalStep stops st p)

/-- C7 witness: the theorem applied at a concrete state, stop list and
position. -/
theorem arrivalStep_monotone_witness :
    (NavState.mk 0 false).currentStopIndex ≤
      (arrivalStep [stopA] (NavState.mk 0 false) ⟨0, 0⟩).currentStopIndex :=
  arrivalStep_monotone.1 [stopA] (NavState.mk 0 false) ⟨0, 0⟩

/-- JavaScript Array.prototype.slice with two arguments: negative indices
count from the end of the array, out-of-range indices clamp. -/
def jsSlice {α : Type} (l : List α) (s e : Int) : List α :=
  let n : Int := l.length
  let s1 := (if s < 0 then max (n + s) 0 else min s n).toNat
  let e1 := (if e < 0 then max (n + e) 0 else min e n).toNat
  (l.take e1).drop s1

/-- Serialization of a coordinate pair by the template lat,lng. JavaScript
number-to-string conversion is kept abstract as toStr. -/
def serializePoint (toStr : ℝ → String) (lat lon : ℝ) : String :=
  toStr lat ++ "," ++ toStr lon

/-- Google Maps deep link construction, translated from
generateGoogleMapsUrl in src/unnamed/part_001 lines 60-82: empty string on
no stops, else origin from the start location or the first stop,
destination from the last stop, waypoints from
stops.slice(startLocation ? 0 : 1, -1).slice(0, 9) joined by a pipe, and
the waypoints parameter appended only when the join is nonempty. -/
def generateGoogleMapsUrl (toStr : ℝ → String) (stops : List RouteStop)
    (startLocation : Option Location) : String :=
  match stops with
  | [] => ""
  | s0 :: rest =>
    let origin :=
      match startLocation with
      | some l => serializePoint toStr l.latitude l.longitude
      | none => serializePoint toStr s0.latitude s0.longitude
    let lastStop := (s0 :: rest).getLast (by simp)
    let destination := serializePoint toStr lastStop.latitude lastStop.longitude
    let waypoints :=
      String.intercalate "|"
        ((jsSlice (jsSlice (s0 :: rest) (if startLocation.isSome then 0 else 1) (-1)) 0 9).map
          (fun stop => serializePoint toStr stop.latitude stop.longitude))
    let url := "https://www.google.com/maps/dir/?api=1&origin=" ++ origin ++
      "&destination=" ++ destination ++ "&travelmode=driving"
    if waypoints ≠ "" then url ++ "&waypoints=" ++ waypoints else url

/-- Specification-side description of the waypoint stops: the stops
strictly between the origin (the start location when given, else the first
stop) and the destination (the last stop), truncated to the first 9. -/
def waypointStopsSpec (stops : List RouteStop) (startLocation : Option Location) :
    List RouteStop :=
  (if startLocation.isSome then stops.dropLast else stops.tail.dropLast).take 9

theorem jsSlice_zero_neg_one {α : Type} (l : List α) : jsSlice l 0 (-1) = l.dropLast := by
  unfold jsSlice
  norm_num
  have he : (max ((l.length : Int) + -1) 0).toNat = l.length - 1 := by omega
  rw [he, List.dropLast_eq_take]

theorem jsSlice_one_neg_one {α : Type} (l : List α) : jsSlice l 1 (-1) = l.tail.dropLast := by
  unfold jsSlice
  norm_num
  have he : (max ((l.length : Int) + -1) 0).toNat = l.length - 1 := by omega
  have hs : (min (1 : Int) (l.length : Int)).toNat = min 1 l.length := by omega
  rw [he, hs]
  match l with
  | [] => simp
  | [x] => simp
  | x :: y :: ys =>
    have hmin : min 1 (x :: y :: ys).length = 1 := by simp
    have hlen : (x :: y :: ys).length - 1 = ys.length + 1 := by simp
    rw [hmin, hlen, List.take_succ_cons, List.drop_succ_cons, List.drop_zero,
      List.tail_cons, List.dropLast_eq_take]
    simp

theorem jsSlice_zero_nine {α : Type} (l : List α) : jsSlice l 0 9 = l.take 9 := by
  unfold jsSlice
  norm_num
  omega

/-- C3: generateGoogleMapsUrl returns the empty string on an empty stop
list; otherwise the URL has origin = the start location if provided else
the first stop, destination = the last stop, and waypoints = the stops
strictly between origin and destination truncated to the first 9, each
serialized lat,lng and joined by a pipe; and with 11 stops and no start
location exactly 9 waypoint coordinate pairs remain. -/
theorem generateGoogleMapsUrl_spec :
    (∀ (toStr : ℝ → String) (startLocation : Option Location),
      generateGoogleMapsUrl toStr [] startLocation = "") ∧
    (∀ (toStr : ℝ → String) (s0 : RouteStop) (rest : List RouteStop)
        (startLocation : Option Location),
      generateGoogleMapsUrl toStr (s0 :: rest) startLocation =
        (let origin :=
          match startLocation with
          | some l => serializePoint toStr l.latitude l.longitude
          | none => serializePoint toStr s0.latitude s0.longitude
        let lastStop := (s0 :: rest).getLast (by simp)
        let destination := serializePoint toStr lastStop.latitude lastStop.longitude
        let waypoints := String.intercalate "|"
          ((waypointStopsSpec (s0 :: rest) startLocation).map
            (fun stop => serializePoint toStr stop.latitude stop.longitude))
        let url := "https://www.google.com/maps/dir/?api=1&origin=" ++ origin ++
          "&destination=" ++ destination ++ "&travelmode=driving"
        if waypoints ≠ "" then url ++ "&waypoints=" ++ waypoints else url)) ∧
    (∀ stops : List RouteStop, stops.length = 11 →
      (waypointStopsSpec stops none).length = 9) := by
  refine ⟨fun _ _ => rfl, ?_, ?_⟩
  · intro toStr s0 rest startLocation
    have hslice : jsSlice (jsSlice (s0 :: rest) (if startLocation.isSome then 0 else 1) (-1)) 0 9 =
        waypointStopsSpec (s0 :: rest) startLocation := by
      unfold waypointStopsSpec
      cases startLocation with
      | some l =>
        simp only [Option.isSome_some, if_true]
        rw [jsSlice_zero_neg_one, jsSlice_zero_nine]
      | none =>
        simp only [Option.isSome_none, Bool.false_eq_true, if_false]
        rw [jsSlice_one_neg_one, jsSlice_zero_nine]
    unfold generateGoogleMapsUrl
    dsimp only
    rw [hslice]
  · intro stops hlen
    unfold waypointStopsSpec
    simp only [Option.isSome_none, Bool.false_eq_true, if_false, List.length_take,
      List.length_dropLast, List.length_tail]
    omega

/-- C3 witness: with a concrete 11-stop list and no start location, exactly
9 waypoint stops remain. -/
theorem generateGoogleMapsUrl_spec_witness :
    (List.replicate 11 stopA).length = 11 ∧
      (waypointStopsSpec (List.replicate 11 stopA) none).length = 9 :=
  ⟨by simp, generateGoogleMapsUrl_spec.2.2 (List.replicate 11 stopA) (by simp)⟩

/-- Unsigned 32-bit reinterpretation of an integer (JavaScript ToUint32). -/
def toUint32 (n : Int) : Nat := (n % 4294967296).toNat

/-- Signed 32-bit reinterpretation of an integer (JavaScript ToInt32). -/
def toInt32 (n : Int) : Int :=
  if n % 4294967296 < 2147483648 then n % 4294967296
  else n % 4294967296 - 4294967296

/-- JavaScript bitwise and on 32-bit integers. -/
def jsAnd (a b : Int) : Int :=
  toInt32 (Int.ofNat (Nat.land (toUint32 a) (toUint32 b)))

/-- JavaScript bitwise or on 32-bit integers. -/
def jsOr (a b : Int) : Int :=
  toInt32 (Int.ofNat (Nat.lor (toUint32 a) (toUint32 b)))

/-- JavaScript left shift on 32-bit integers (shift count taken mod 32). -/
def jsShl (a : Int) (k : Nat) : Int :=
  toInt32 (Int.ofNat (Nat.shiftLeft (toUint32 a) (k % 32)))

/-- JavaScript sign-propagating right shift on 32-bit integers. -/
def jsShrS (a : Int) (k : Nat) : Int := (toInt32 a) >>> (k % 32)

/-- JavaScript bitwise not on 32-bit integers: the two's-complement
~x = -x - 1, whose result always fits 32 bits again. -/
def jsNot (a : Int) : Int := -(toInt32 a) - 1

/-- charCodeAt on a string modeled as its list of UTF-16 code units: some
code in range, none (NaN in JavaScript) past the end. -/
def charCodeAt (s : List Nat) (i : Nat) : Option Nat := s.get? i

/-- The do-while chunk loop of decodePolyline in
src/src/services/directionsService.ts lines 209-213 (and 221-225):
b = charCodeAt(index++) - 63, result |= (b & 0x1f) << shift, shift += 5,
repeated while b >= 0x20. Past the end of the string b is NaN: ToInt32(NaN)
is 0, so the or-term is (0 & 0x1f) << shift, and the NaN comparison
b >= 0x20 is false, so the loop exits. Returns the new index and result. -/
def decodeVarint (s : List Nat) (i : Nat) (shift : Nat) (result : Int) : Nat × Int :=
  match hc : charCodeAt s i with
  | none => (i + 1, jsOr result (jsShl (jsAnd 0 31) shift))
  | some c =>
    let b : Int := (c : Int) - 63
    let result1 := jsOr result (jsShl (jsAnd b 31) shift)
    if 32 ≤ b then decodeVarint s (i + 1) (shift + 5) result1
    else (i + 1, result1)
termination_by s.length - i
decreasing_by
  have hc2 : s.get? i = some c := hc
  obtain ⟨hlt, -⟩ := List.get?_eq_some.mp hc2
  omega

/-- The chunk loop always advances the read index. -/
theorem decodeVarint_fst_gt (s : List Nat) :
    ∀ (n i shift : Nat) (result : Int), s.length - i ≤ n →
      i < (decodeVarint s i shift result).1 := by
  intro n
  induction n with
  | zero =>
    intro i shift result hn
    rw [decodeVarint]
    have : s.get? i = none := List.get?_eq_none.mpr (by omega)
    rw [show charCodeAt s i = none from this]
    simp
  | succ n ih =>
    intro i shift result hn
    rw [decodeVarint]
    cases hc : charCodeAt s i with
    | none => simp
    | some c =>
      dsimp only
      by_cases hb : 32 ≤ (c : Int) - 63
      · rw [if_pos hb]
        have hc2 : s.get? i = some c := hc
        obtain ⟨hlt, -⟩ := List.get?_eq_some.mp hc2
        have := ih (i + 1) (shift + 5)
          (jsOr result (jsShl (jsAnd ((c : Int) - 63) 31) shift)) (by omega)
        omega
      · rw [if_neg hb]
        omega

theorem decodeVarint_index_gt (s : List Nat) (i shift : Nat) (result : Int) :
    i < (decodeVarint s i shift result).1 :=
  decodeVarint_fst_gt s (s.length - i) i shift result (le_refl _)

/-- The outer while loop of decodePolyline in
src/src/services/directionsService.ts lines 204-234: decode one chunked
value for the latitude delta and one for the longitude delta, undo the
zig-zag sign encoding by (result & 1) != 0 ? ~(result >> 1) : result >> 1,
advance the accumulators, push the point (lat / 1e5, lng / 1e5). The
coordinates are modeled as exact rationals. -/
def decodeLoop (s : List Nat) (i : Nat) (lat lng : Int) : List (ℚ × ℚ) :=
  if i < s.length then
    let p1 := decodeVarint s i 0 0
    let dlat := if jsAnd p1.2 1 ≠ 0 then jsNot (jsShrS p1.2 1) else jsShrS p1.2 1
    let lat1 := lat + dlat
    let p2 := decodeVarint s p1.1 0 0
    let dlng := if jsAnd p2.2 1 ≠ 0 then jsNot (jsShrS p2.2 1) else jsShrS p2.2 1
    let lng1 := lng + dlng
    ((lat1 : ℚ) / 100000, (lng1 : ℚ) / 100000) :: decodeLoop s p2.1 lat1 lng1
  else []
termination_by s.length - i
decreasing_by
  have h1 := decodeVarint_index_gt s i 0 0
  have h2 := decodeVarint_index_gt s (decodeVarint s i 0 0).1 0 0
  omega

/-- decodePolyline, translated from src/src/services/directionsService.ts
lines 198-237, on a string modeled as its list of UTF-16 code units. -/
def decodePolyline (encoded : List Nat) : List (ℚ × ℚ) :=
  decodeLoop encoded 0 0 0

/-- Structural worker for the polyline chunking: the fuel only bounds the
recursion depth, and any fuel at least the value gives the chunking itself
(encodeNatGo_congr), which keeps the encoder kernel-computable. -/
def encodeNatGo : Nat → Nat → List Nat
  | 0, z => [z + 63]
  | fuel + 1, z =>
    if z < 32 then [z + 63]
    else ((32 ||| z % 32) + 63) :: encodeNatGo fuel (z / 32)

/-- The standard polyline chunking of a non-negative value, following the
spec: emit the value 5 bits at a time from the low end, set the 0x20
continuation bit on every chunk but the last, offset every byte by 63. -/
def encodeNat (z : Nat) : List Nat := encodeNatGo z z

theorem encodeNatGo_congr :
    ∀ (z fuel1 fuel2 : Nat), z ≤ fuel1 → z ≤ fuel2 →
      encodeNatGo fuel1 z = encodeNatGo fuel2 z := by
  intro z
  induction z using Nat.strong_induction_on with
  | _ z ih =>
    intro fuel1 fuel2 h1 h2
    match fuel1, fuel2 with
    | 0, 0 => rfl
    | 0, fuel2 + 1 =>
      have hz : z = 0 := by omega
      subst hz
      simp [encodeNatGo]
    | fuel1 + 1, 0 =>
      have hz : z = 0 := by omega
      subst hz
      simp [encodeNatGo]
    | fuel1 + 1, fuel2 + 1 =>
      simp only [encodeNatGo]
      by_cases hz : z < 32
      · rw [if_pos hz, if_pos hz]
      · rw [if_neg hz, if_neg hz]
        have hdiv : z / 32 < z := Nat.div_lt_self (by omega) (by omega)
        rw [ih (z / 32) hdiv fuel1 fuel2 (by omega) (by omega)]

/-- The recursion the chunking satisfies. -/
theorem encodeNat_eq (z : Nat) :
    encodeNat z =
      if z < 32 then [z + 63] else ((32 ||| z % 32) + 63) :: encodeNat (z / 32) := by
  by_cases hz : z < 32
  · rw [if_pos hz]
    unfold encodeNat
    match z, hz with
    | 0, _ => rfl
    | z + 1, hz => simp [encodeNatGo, hz]
  · rw [if_neg hz]
    unfold encodeNat
    have hdiv : z / 32 < z := Nat.div_lt_self (by omega) (by omega)
    match z, hz, hdiv with
    | z + 1, hz, hdiv =>
      simp only [encodeNatGo]
      rw [if_neg hz]
      rw [encodeNatGo_congr ((z + 1) / 32) z ((z + 1) / 32) (by omega) (le_refl _)]

/-- Zig-zag sign encoding of a delta, following the spec. -/
def zigzag (d : Int) : Nat :=
  if 0 ≤ d then (2 * d).toNat else (-(2 * d) - 1).toNat

/-- The delta encoding of scaled coordinate pairs, following the spec: for
each point the latitude delta from the previous point is zig-zag encoded
and chunked, then the longitude delta, latitude first. -/
def encodeFrom (prevLat prevLng : Int) : List (Int × Int) → List Nat
  | [] => []
  | (la, ln) :: rest =>
    encodeNat (zigzag (la - prevLat)) ++ encodeNat (zigzag (ln - prevLng)) ++
      encodeFrom la ln rest

/-- The standard polyline encoder on 1e5-scaled integer coordinates,
following the spec (deltas start from (0, 0)). -/
def encodePolyline (points : List (Int × Int)) : List Nat := encodeFrom 0 0 points

/-- Bitwise or of disjoint bit ranges is addition: low bits below 2^k
or-ed with a multiple of 2^k. -/
theorem lor_mul_two_pow_add :
    ∀ (k a m : Nat), a < 2 ^ k → a ||| m * 2 ^ k = a + m * 2 ^ k := by
  intro k
  induction k with
  | zero =>
    intro a m ha
    have ha0 : a = 0 := by omega
    subst ha0
    simp
  | succ k ih =>
    intro a m ha
    have hp : (2 : Nat) ^ (k + 1) = 2 * 2 ^ k := by rw [pow_succ]; ring
    have hbit : m * 2 ^ (k + 1) = Nat.bit false (m * 2 ^ k) := by
      rw [Nat.bit_val]
      simp [hp]
      ring
    conv_lhs => rw [← Nat.bit_decide_mod_two_eq_one_shiftRight_one a, hbit, Nat.lor_bit]
    have hdiv : a >>> 1 = a / 2 := Nat.shiftRight_one a
    have hlt : a / 2 < 2 ^ k := by omega
    rw [Bool.or_false, hdiv, ih (a / 2) m hlt, Nat.bit_val]
    have h2 : m * 2 ^ (k + 1) = 2 * (m * 2 ^ k) := by rw [hp]; ring
    rw [h2]
    rcases Nat.mod_two_eq_zero_or_one a with h | h <;> simp [h] <;> omega

theorem toUint32_ofNat (n : Nat) (h : n < 4294967296) : toUint32 ((n : Int)) = n := by
  unfold toUint32
  omega

theorem toInt32_ofNat (n : Nat) (h : n < 2147483648) :
    toInt32 ((n : Int)) = (n : Int) := by
  unfold toInt32
  have hm : ((n : Int)) % 4294967296 = (n : Int) := by omega
  rw [hm, if_pos (by omega)]

theorem jsOr_ofNat (x y : Nat) (hx : x < 2147483648) (hy : y < 2147483648) :
    jsOr ((x : Int)) ((y : Int)) = ((x ||| y : Nat) : Int) := by
  unfold jsOr
  rw [toUint32_ofNat x (by omega), toUint32_ofNat y (by omega)]
  have hor : Nat.lor x y = x ||| y := rfl
  rw [hor]
  exact toInt32_ofNat _ (by
    have : x ||| y < 2 ^ 31 := Nat.or_lt_two_pow (by norm_num at hx ⊢; omega) (by norm_num; omega)
    norm_num at this
    omega)

theorem jsAnd31 (x : Nat) (hx : x < 2147483648) :
    jsAnd ((x : Int)) 31 = ((x % 32 : Nat) : Int) := by
  unfold jsAnd
  rw [toUint32_ofNat x (by omega)]
  have h31 : toUint32 31 = 31 := rfl
  rw [h31]
  have hand : Nat.land x 31 = x % 32 := by
    show x &&& 31 = x % 32
    have : (31 : Nat) = 2 ^ 5 - 1 := by norm_num
    rw [this, Nat.and_pow_two_sub_one_eq_mod]
  rw [hand]
  exact toInt32_ofNat _ (by omega)

theorem jsAnd1 (x : Nat) (hx : x < 2147483648) :
    jsAnd ((x : Int)) 1 = ((x % 2 : Nat) : Int) := by
  unfold jsAnd
  rw [toUint32_ofNat x (by omega)]
  have h1 : toUint32 1 = 1 := rfl
  rw [h1]
  have hand : Nat.land x 1 = x % 2 := by
    show x &&& 1 = x % 2
    have : (1 : Nat) = 2 ^ 1 - 1 := by norm_num
    rw [this, Nat.and_pow_two_sub_one_eq_mod]
  rw [hand]
  exact toInt32_ofNat _ (by omega)

theorem jsShl_ofNat (x k : Nat) (hk : k < 32) (hb : x * 2 ^ k < 2147483648) :
    jsShl ((x : Int)) k = ((x * 2 ^ k : Nat) : Int) := by
  unfold jsShl
  have hx : x < 4294967296 := by
    have h1 : x ≤ x * 2 ^ k := Nat.le_mul_of_pos_right x (Nat.two_pow_pos k)
    omega
  rw [toUint32_ofNat x hx, Nat.mod_eq_of_lt hk]
  have hsh : Nat.shiftLeft x k = x <<< k := rfl
  rw [hsh, Nat.shiftLeft_eq]
  exact toInt32_ofNat _ hb

theorem jsShrS_ofNat (x k : Nat) (hx : x < 2147483648) (hk : k < 32) :
    jsShrS ((x : Int)) k = ((x >>> k : Nat) : Int) := by
  unfold jsShrS
  rw [toInt32_ofNat x hx, Nat.mod_eq_of_lt hk]
  rfl

theorem jsNot_ofNat (x : Nat) (hx : x < 2147483648) :
    jsNot ((x : Int)) = -((x : Int)) - 1 := by
  unfold jsNot
  rw [toInt32_ofNat x hx]

theorem zigzag_lt (d : Int) (h : d.natAbs < 2 ^ 30) : zigzag d < 2147483648 := by
  unfold zigzag
  split <;> omega

/-- The zig-zag branch of the decoder recovers the signed delta from its
zig-zag encoding. -/
theorem zigzag_decode (d : Int) (h : d.natAbs < 2 ^ 30) :
    (if jsAnd ((zigzag d : Nat) : Int) 1 ≠ 0 then jsNot (jsShrS ((zigzag d : Nat) : Int) 1)
      else jsShrS ((zigzag d : Nat) : Int) 1) = d := by
  have hz : zigzag d < 2147483648 := zigzag_lt d h
  rw [jsAnd1 (zigzag d) hz, jsShrS_ofNat (zigzag d) 1 hz (by norm_num)]
  have hshr : zigzag d >>> 1 = zigzag d / 2 := Nat.shiftRight_one _
  rw [hshr]
  by_cases hd : 0 ≤ d
  · have hmod : zigzag d % 2 = 0 := by
      unfold zigzag
      rw [if_pos hd]
      omega
    rw [hmod, if_neg (by simp)]
    have hval : zigzag d / 2 = d.toNat := by
      unfold zigzag
      rw [if_pos hd]
      omega
    rw [hval]
    omega
  · have hmod : zigzag d % 2 = 1 := by
      unfold zigzag
      rw [if_neg hd]
      omega
    rw [hmod, if_pos (by simp)]
    rw [jsNot_ofNat (zigzag d / 2) (by omega)]
    have hval : zigzag d / 2 = (-d - 1).toNat := by
      unfold zigzag
      rw [if_neg hd]
      omega
    rw [hval]
    omega

/-- Decoding one chunked value out of the encoding: the chunk loop started
at the chunk boundary with shift and accumulator consistent reads exactly
the chunks of z and accumulates z at the current shift. -/
theorem decodeVarint_encode :
    ∀ (z shift r : Nat) (pre rest : List Nat),
      r < 2 ^ shift → shift < 32 → r + z * 2 ^ shift < 2147483648 →
      decodeVarint (pre ++ encodeNat z ++ rest) pre.length shift ((r : Nat) : Int) =
        (pre.length + (encodeNat z).length, ((r + z * 2 ^ shift : Nat) : Int)) := by
  intro z
  induction z using Nat.strong_induction_on with
  | _ z ih =>
    intro shift r pre rest hr hsh hbound
    have h31 : (2 : Nat) ^ 31 = 2147483648 := by norm_num
    have hshle : (2 : Nat) ^ shift ≤ 2 ^ 31 := Nat.pow_le_pow_right (by norm_num) (by omega)
    have hzb : z * 2 ^ shift < 2147483648 := by omega
    by_cases hz : z < 32
    · have hEnc : encodeNat z = [z + 63] := by rw [encodeNat_eq, if_pos hz]
      have hchar : charCodeAt (pre ++ encodeNat z ++ rest) pre.length = some (z + 63) := by
        unfold charCodeAt
        rw [List.append_assoc, List.get?_append_right (le_refl pre.length), hEnc]
        simp
      rw [decodeVarint, hchar]
      dsimp only
      have hb : ((z + 63 : Nat) : Int) - 63 = ((z : Nat) : Int) := by push_cast; ring
      rw [hb, if_neg (by omega)]
      rw [jsAnd31 z (by omega), Nat.mod_eq_of_lt hz]
      rw [jsShl_ofNat z shift hsh hzb]
      rw [jsOr_ofNat r (z * 2 ^ shift) (by omega) (by omega)]
      rw [show r ||| z * 2 ^ shift = r + z * 2 ^ shift from lor_mul_two_pow_add shift r z hr]
      rw [hEnc]
      simp
    · have hdiv : z / 32 < z := Nat.div_lt_self (by omega) (by omega)
      have hEnc : encodeNat z = ((32 ||| z % 32) + 63) :: encodeNat (z / 32) := by
        rw [encodeNat_eq, if_neg hz]
      have h32 : (32 : Nat) ||| z % 32 = 32 + z % 32 := by
        rw [Nat.lor_comm]
        have hl := lor_mul_two_pow_add 5 (z % 32) 1 (by omega)
        norm_num at hl
        omega
      have hchar : charCodeAt (pre ++ encodeNat z ++ rest) pre.length =
          some ((32 ||| z % 32) + 63) := by
        unfold charCodeAt
        rw [List.append_assoc, List.get?_append_right (le_refl pre.length), hEnc]
        simp
      rw [decodeVarint, hchar]
      dsimp only
      have hb : ((((32 : Nat) ||| z % 32) + 63 : Nat) : Int) - 63 =
          ((32 + z % 32 : Nat) : Int) := by
        rw [h32]
        push_cast
        ring
      rw [hb, if_pos (by push_cast; omega)]
      rw [jsAnd31 (32 + z % 32) (by omega)]
      have hmod : (32 + z % 32) % 32 = z % 32 := by omega
      rw [hmod]
      have hmle : z % 32 * 2 ^ shift ≤ z * 2 ^ shift :=
        Nat.mul_le_mul_right (2 ^ shift) (Nat.mod_le z 32)
      rw [jsShl_ofNat (z % 32) shift hsh (by omega)]
      rw [jsOr_ofNat r (z % 32 * 2 ^ shift) (by omega) (by omega)]
      rw [show r ||| z % 32 * 2 ^ shift = r + z % 32 * 2 ^ shift from
        lor_mul_two_pow_add shift r (z % 32) hr]
      have hp5 : (2 : Nat) ^ (shift + 5) = 32 * 2 ^ shift := by
        rw [pow_add]
        norm_num
        ring
      have h32le : 32 * 2 ^ shift ≤ z * 2 ^ shift :=
        Nat.mul_le_mul_right (2 ^ shift) (by omega)
      have hlt31 : (2 : Nat) ^ (shift + 5) < 2 ^ 31 := by omega
      have hsh5 : shift + 5 < 32 := by
        have := (Nat.pow_lt_pow_iff_right (by norm_num : (1 : Nat) < 2)).mp hlt31
        omega
      have hm31 : z % 32 * 2 ^ shift ≤ 31 * 2 ^ shift :=
        Nat.mul_le_mul_right (2 ^ shift) (by omega)
      have hr1 : r + z % 32 * 2 ^ shift < 2 ^ (shift + 5) := by omega
      have key : z * 2 ^ shift = 32 * (z / 32) * 2 ^ shift + z % 32 * 2 ^ shift := by
        conv_lhs => rw [← Nat.div_add_mod z 32]
        ring
      have hsum : r + z % 32 * 2 ^ shift + z / 32 * 2 ^ (shift + 5) =
          r + z * 2 ^ shift := by
        rw [hp5, key]
        ring
      have hbound1 : r + z % 32 * 2 ^ shift + z / 32 * 2 ^ (shift + 5) < 2147483648 := by
        rw [hsum]
        exact hbound
      have hs : pre ++ encodeNat z ++ rest =
          (pre ++ [(32 ||| z % 32) + 63]) ++ encodeNat (z / 32) ++ rest := by
        rw [hEnc]
        simp
      rw [hs]
      have hlen : pre.length + 1 = (pre ++ [(32 ||| z % 32) + 63]).length := by simp
      rw [hlen]
      rw [ih (z / 32) hdiv (shift + 5) (r + z % 32 * 2 ^ shift)
        (pre ++ [(32 ||| z % 32) + 63]) rest hr1 hsh5 hbound1]
      rw [hsum, hEnc]
      simp
      omega

theorem encodeNat_length_pos (z : Nat) : 0 < (encodeNat z).length := by
  rw [encodeNat_eq]
  split <;> simp

/-- Decoding an encoded path: the outer loop started at the boundary of the
encoded points, with accumulators equal to the previous scaled point,
returns exactly the scaled points divided by 1e5. -/
theorem decodeLoop_encode :
    ∀ (pts : List (Int × Int)) (pre : List Nat) (prevLat prevLng : Int),
      (∀ p ∈ pts, p.1.natAbs < 2 ^ 29 ∧ p.2.natAbs < 2 ^ 29) →
      prevLat.natAbs < 2 ^ 29 → prevLng.natAbs < 2 ^ 29 →
      decodeLoop (pre ++ encodeFrom prevLat prevLng pts) pre.length prevLat prevLng =
        pts.map (fun p => ((p.1 : ℚ) / 100000, (p.2 : ℚ) / 100000)) := by
  intro pts
  induction pts with
  | nil =>
    intro pre prevLat prevLng _ _ _
    rw [decodeLoop, if_neg (by simp [encodeFrom])]
    simp
  | cons p rest ih =>
    obtain ⟨la, ln⟩ := p
    intro pre prevLat prevLng hpts hplat hplng
    obtain ⟨hla, hln⟩ := hpts (la, ln) (by simp)
    have hd1 : (la - prevLat).natAbs < 2 ^ 30 := by
      have h29 : (2 : Nat) ^ 29 + 2 ^ 29 ≤ 2 ^ 30 := by norm_num
      omega
    have hd2 : (ln - prevLng).natAbs < 2 ^ 30 := by
      have h29 : (2 : Nat) ^ 29 + 2 ^ 29 ≤ 2 ^ 30 := by norm_num
      omega
    have hz1 : zigzag (la - prevLat) < 2147483648 := zigzag_lt _ hd1
    have hz2 : zigzag (ln - prevLng) < 2147483648 := zigzag_lt _ hd2
    have hs1 : pre ++ encodeFrom prevLat prevLng ((la, ln) :: rest) =
        pre ++ encodeNat (zigzag (la - prevLat)) ++
          (encodeNat (zigzag (ln - prevLng)) ++ encodeFrom la ln rest) := by
      simp [encodeFrom]
    rw [hs1]
    have hidx : pre.length <
        (pre ++ encodeNat (zigzag (la - prevLat)) ++
          (encodeNat (zigzag (ln - prevLng)) ++ encodeFrom la ln rest)).length := by
      have := encodeNat_length_pos (zigzag (la - prevLat))
      simp [List.length_append]
      omega
    rw [decodeLoop, if_pos hidx]
    dsimp only
    have e1 := decodeVarint_encode (zigzag (la - prevLat)) 0 0 pre
      (encodeNat (zigzag (ln - prevLng)) ++ encodeFrom la ln rest)
      (by norm_num) (by norm_num) (by simpa using hz1)
    rw [Nat.cast_zero] at e1
    simp only [pow_zero, mul_one, Nat.zero_add] at e1
    rw [e1]
    dsimp only
    rw [zigzag_decode (la - prevLat) hd1]
    have hlat : prevLat + (la - prevLat) = la := by ring
    rw [hlat]
    have hlen2 : pre.length + (encodeNat (zigzag (la - prevLat))).length =
        (pre ++ encodeNat (zigzag (la - prevLat))).length := by simp
    rw [hlen2]
    have hs2 : pre ++ encodeNat (zigzag (la - prevLat)) ++
        (encodeNat (zigzag (ln - prevLng)) ++ encodeFrom la ln rest) =
        (pre ++ encodeNat (zigzag (la - prevLat))) ++
          encodeNat (zigzag (ln - prevLng)) ++ encodeFrom la ln rest := by
      simp
    rw [hs2]
    have e2 := decodeVarint_encode (zigzag (ln - prevLng)) 0 0
      (pre ++ encodeNat (zigzag (la - prevLat))) (encodeFrom la ln rest)
      (by norm_num) (by norm_num) (by simpa using hz2)
    rw [Nat.cast_zero] at e2
    simp only [pow_zero, mul_one, Nat.zero_add] at e2
    rw [e2]
    dsimp only
    rw [zigzag_decode (ln - prevLng) hd2]
    have hlng : prevLng + (ln - prevLng) = ln := by ring
    rw [hlng]
    have hlen3 : (pre ++ encodeNat (zigzag (la - prevLat))).length +
        (encodeNat (zigzag (ln - prevLng))).length =
        ((pre ++ encodeNat (zigzag (la - prevLat))) ++
          encodeNat (zigzag (ln - prevLng))).length := by
      simp
      omega
    rw [hlen3]
    rw [ih ((pre ++ encodeNat (zigzag (la - prevLat))) ++
        encodeNat (zigzag (ln - prevLng))) la ln
      (fun q hq => hpts q (by simp [hq])) hla hln]
    simp

/-- The 1e5-scaled integer coordinates of the published polyline reference
test vector (38.5, -120.2), (40.7, -120.95), (43.252, -126.453). -/
def referencePoints : List (Int × Int) :=
  [(3850000, -12020000), (4070000, -12095000), (4325200, -12645300)]

/-- C5: decodePolyline exactly inverts the standard polyline encoding on
every sequence of scaled coordinate pairs in the 32-bit-safe range (which
contains every geographic coordinate), and the code units of the published
reference vector string decode to exactly
(38.5, -120.2), (40.7, -120.95), (43.252, -126.453). -/
theorem decodePolyline_roundtrip :
    (∀ pts : List (Int × Int),
      (∀ p ∈ pts, p.1.natAbs < 2 ^ 29 ∧ p.2.natAbs < 2 ^ 29) →
      decodePolyline (encodePolyline pts) =
        pts.map (fun p => ((p.1 : ℚ) / 100000, (p.2 : ℚ) / 100000))) ∧
    decodePolyline [95, 112, 126, 105, 70, 126, 112, 115, 124, 85, 95, 117, 108, 76,
        110, 110, 113, 67, 95, 109, 113, 78, 118, 120, 113, 96, 64] =
      [((3850000 : ℚ) / 100000, (-12020000 : ℚ) / 100000),
        ((4070000 : ℚ) / 100000, (-12095000 : ℚ) / 100000),
        ((4325200 : ℚ) / 100000, (-12645300 : ℚ) / 100000)] := by
  have main : ∀ pts : List (Int × Int),
      (∀ p ∈ pts, p.1.natAbs < 2 ^ 29 ∧ p.2.natAbs < 2 ^ 29) →
      decodePolyline (encodePolyline pts) =
        pts.map (fun p => ((p.1 : ℚ) / 100000, (p.2 : ℚ) / 100000)) := by
    intro pts hb
    have h := decodeLoop_encode pts [] 0 0 hb (by norm_num) (by norm_num)
    simpa [decodePolyline, encodePolyline] using h
  refine ⟨main, ?_⟩
  have henc : encodePolyline referencePoints = [95, 112, 126, 105, 70, 126, 112, 115,
      124, 85, 95, 117, 108, 76, 110, 110, 113, 67, 95, 109, 113, 78, 118, 120, 113,
      96, 64] := by decide
  rw [← henc, main referencePoints (by decide)]
  norm_num [referencePoints]

/-- C5 witness: the round-trip applied to the reference coordinates, whose
bounds are discharged by computation. -/
theorem decodePolyline_roundtrip_witness :
    (∀ p ∈ referencePoints, p.1.natAbs < 2 ^ 29 ∧ p.2.natAbs < 2 ^ 29) ∧
    decodePolyline (encodePolyline referencePoints) =
      referencePoints.map (fun p => ((p.1 : ℚ) / 100000, (p.2 : ℚ) / 100000)) :=
  ⟨by decide, decodePolyline_roundtrip.1 referencePoints (by decide)⟩

theorem decodeLoop_length :
    ∀ (n : Nat) (s : List Nat) (i : Nat), s.length - i ≤ n → ∀ (lat lng : Int),
      2 * (decodeLoop s i lat lng).length ≤ s.length + 1 - i := by
  intro n
  induction n with
  | zero =>
    intro s i hn lat lng
    rw [decodeLoop, if_neg (by omega)]
    simp
  | succ n ih =>
    intro s i hn lat lng
    rw [decodeLoop]
    by_cases hi : i < s.length
    · rw [if_pos hi]
      dsimp only
      have h1 := decodeVarint_index_gt s i 0 0
      have h2 := decodeVarint_index_gt s (decodeVarint s i 0 0).1 0 0
      have hrec := ih s (decodeVarint s (decodeVarint s i 0 0).1 0 0).1 (by omega)
        (lat + if jsAnd (decodeVarint s i 0 0).2 1 ≠ 0 then
            jsNot (jsShrS (decodeVarint s i 0 0).2 1) else jsShrS (decodeVarint s i 0 0).2 1)
        (lng + if jsAnd (decodeVarint s (decodeVarint s i 0 0).1 0 0).2 1 ≠ 0 then
            jsNot (jsShrS (decodeVarint s (decodeVarint s i 0 0).1 0 0).2 1)
          else jsShrS (decodeVarint s (decodeVarint s i 0 0).1 0 0).2 1)
      simp only [List.length_cons]
      omega
    · rw [if_neg hi]
      simp

/-- C10: decodePolyline terminates and yields a finite list on every input
string, well formed or not: the chunk loop strictly advances the read
index; one read past the end of the string produces the NaN byte, which
fails the continuation test, so the chunk loop exits after a single step;
and every decoded point consumes at least two characters, so the number of
points is bounded by half the string length. -/
theorem decodePolyline_terminates :
    (∀ (s : List Nat) (i shift : Nat) (result : Int),
      i < (decodeVarint s i shift result).1) ∧
    (∀ (s : List Nat) (i shift : Nat) (result : Int), s.length ≤ i →
      decodeVarint s i shift result = (i + 1, jsOr result (jsShl (jsAnd 0 31) shift))) ∧
    (∀ s : List Nat, 2 * (decodePolyline s).length ≤ s.length + 1) := by
  refine ⟨decodeVarint_index_gt, ?_, ?_⟩
  · intro s i shift result h
    rw [decodeVarint]
    have hc : charCodeAt s i = none := List.get?_eq_none.mpr h
    rw [hc]
  · intro s
    have h := decodeLoop_length s.length s 0 (by omega) 0 0
    unfold decodePolyline
    omega

/-- C10 witness: the NaN branch applied at a concrete out-of-range read. -/
theorem decodePolyline_terminates_witness :
    ([] : List Nat).length ≤ 0 ∧
      decodeVarint [] 0 0 0 = (1, jsOr 0 (jsShl (jsAnd 0 31) 0)) :=
  ⟨by decide, decodePolyline_terminates.2.1 [] 0 0 0 (by decide)⟩

/-- A store of JavaScript arrays of stops: a reference is an allocation
index and the store maps every reference to the array contents it holds. -/
abbrev Heap : Type := Nat → List RouteStop

/-- Writing array contents at a reference. -/
def writeRef (h : Heap) (r : Nat) (v : List RouteStop) : Heap :=
  fun q => if q = r then v else h q

/-- The while loop of optimizeRoute acting on the array store: the
unvisited pool at uRef is spliced in place, the optimized output at oRef
is pushed in place, and nothing else is written. -/
def optimizeLoopH {D : Type} (lt : D → D → Bool) (top : D)
    (dist : Location → RouteStop → D) (uRef oRef : Nat) (hne : uRef ≠ oRef) :
    Heap → Location → Heap
  | h, current =>
    match hu : h uRef with
    | [] => h
    | s :: rest =>
      match hg : (s :: rest).get? (scanNearest lt top (dist current) (s :: rest)).1 with
      | some nearest =>
        optimizeLoopH lt top dist uRef oRef hne
          (writeRef (writeRef h uRef
              ((s :: rest).eraseIdx (scanNearest lt top (dist current) (s :: rest)).1))
            oRef
            ((writeRef h uRef
              ((s :: rest).eraseIdx (scanNearest lt top (dist current) (s :: rest)).1)) oRef
              ++ [nearest]))
          ⟨nearest.latitude, nearest.longitude⟩
      | none => h
termination_by h _ => (h uRef).length
decreasing_by
  obtain ⟨hlt, -⟩ := List.get?_eq_some.mp hg
  simp only [writeRef]
  rw [if_neg hne]
  simp only [if_true]
  rw [hu]
  simp only [List.length_eraseIdx, if_pos hlt]
  omega

/-- optimizeRoute acting on the array store, translated from
src/unnamed/part_001 lines 17-57 with the array operations made explicit:
with at most one stop the input array itself is returned (the same
reference); otherwise the spread copy of the stops is allocated at the
next free reference, the empty output array at the one after, the loop
runs, and the reference of the output array is returned together with the
new store and allocation counter. -/
def optimizeRouteH {D : Type} (lt : D → D → Bool) (top : D)
    (dist : Location → RouteStop → D) (h : Heap) (next stopsRef : Nat)
    (startLocation : Option Location) : Heap × Nat × Nat :=
  if (h stopsRef).length ≤ 1 then (h, next, stopsRef)
  else
    let currentLocation : Location :=
      match startLocation with
      | some l => l
      | none =>
        match h stopsRef with
        | s0 :: _ => ⟨s0.latitude, s0.longitude⟩
        | [] => ⟨0, 0⟩
    (optimizeLoopH lt top dist next (next + 1) (by omega)
      (writeRef (writeRef h next (h stopsRef)) (next + 1) []) currentLocation,
      next + 2, next + 1)

/-- The loop writes only the unvisited pool and the output array: every
other reference keeps its contents. -/
theorem optimizeLoopH_frame {D : Type} (lt : D → D → Bool) (top : D)
    (dist : Location → RouteStop → D) (uRef oRef : Nat) (hne : uRef ≠ oRef) :
    ∀ (n : Nat) (h : Heap), (h uRef).length ≤ n → ∀ (current : Location) (r : Nat),
      r ≠ uRef → r ≠ oRef →
      optimizeLoopH lt top dist uRef oRef hne h current r = h r := by
  intro n
  induction n with
  | zero =>
    intro h hlen current r _ _
    have hnil : h uRef = [] := List.length_eq_zero.mp (by omega)
    rw [optimizeLoopH, hnil]
  | succ n ih =>
    intro h hlen current r hru hro
    cases hu : h uRef with
    | nil => rw [optimizeLoopH, hu]
    | cons s rest =>
      rw [optimizeLoopH, hu]
      dsimp only
      cases hg : (s :: rest).get? (scanNearest lt top (dist current) (s :: rest)).1 with
      | none => rfl
      | some nearest =>
        dsimp only
        obtain ⟨hlt, -⟩ := List.get?_eq_some.mp hg
        have hh2u : (writeRef (writeRef h uRef
            ((s :: rest).eraseIdx (scanNearest lt top (dist current) (s :: rest)).1)) oRef
            ((writeRef h uRef
              ((s :: rest).eraseIdx
                (scanNearest lt top (dist current) (s :: rest)).1)) oRef ++ [nearest]))
              uRef =
            (s :: rest).eraseIdx (scanNearest lt top (dist current) (s :: rest)).1 := by
          simp [writeRef, hne]
        have hlen2 : ((writeRef (writeRef h uRef
            ((s :: rest).eraseIdx (scanNearest lt top (dist current) (s :: rest)).1)) oRef
            ((writeRef h uRef
              ((s :: rest).eraseIdx
                (scanNearest lt top (dist current) (s :: rest)).1)) oRef ++ [nearest]))
              uRef).length ≤ n := by
          rw [hh2u, List.length_eraseIdx, if_pos hlt]
          rw [hu] at hlen
          simp only [List.length_cons] at hlen ⊢
          omega
        rw [ih _ hlen2 _ r hru hro]
        simp [writeRef, hru, hro]

/-- C8 (amended): optimizeRoute never mutates the input array: after the
call the store holds the original stops unchanged at the input reference;
with at least two stops the returned array is a freshly allocated
reference distinct from the input; with zero or one stops the source
returns the input array itself (the same reference, unchanged), not a new
sequence. -/
theorem optimizeRoute_no_mutation :
    ∀ (D : Type) (lt : D → D → Bool) (top : D) (dist : Location → RouteStop → D)
      (h : Heap) (next stopsRef : Nat) (startLocation : Option Location),
      stopsRef < next →
      (optimizeRouteH lt top dist h next stopsRef startLocation).1 stopsRef = h stopsRef ∧
      (2 ≤ (h stopsRef).length →
        (optimizeRouteH lt top dist h next stopsRef startLocation).2.2 ≠ stopsRef) ∧
      ((h stopsRef).length ≤ 1 →
        (optimizeRouteH lt top dist h next stopsRef startLocation).2.2 = stopsRef) := by
  intro D lt top dist h next stopsRef startLocation hlt
  unfold optimizeRouteH
  by_cases hlen : (h stopsRef).length ≤ 1
  · rw [if_pos hlen]
    exact ⟨rfl, fun hc => absurd hc (by omega), fun _ => rfl⟩
  · rw [if_neg hlen]
    dsimp only
    refine ⟨?_, fun _ => by omega, fun hc => absurd hc hlen⟩
    rw [optimizeLoopH_frame lt top dist next (next + 1) (by omega)
      (((writeRef (writeRef h next (h stopsRef)) (next + 1) []) next).length)
      _ (le_refl _) _ stopsRef (by omega) (by omega)]
    simp only [writeRef]
    rw [if_neg (by omega), if_neg (by omega)]

/-- C8 counterexample: on a single-stop array optimizeRoute returns the
very input array (the same reference 0), not a new sequence. -/
theorem optimizeRoute_alias_single :
    (optimizeRouteH eltb ⊤ stopDistE (writeRef (fun _ => []) 0 [stopA]) 1 0 none).2.2 = 0 := by
  unfold optimizeRouteH
  rw [if_pos (by simp [writeRef])]

/-- C8 witness: the theorem applied at a concrete store holding one
two-stop array at reference 0 with next free reference 1. -/
theorem optimizeRoute_no_mutation_witness :
    (optimizeRouteH eltb ⊤ stopDistE (writeRef (fun _ => []) 0 [stopA, stopB]) 1 0 none).1 0 =
        (writeRef (fun _ => []) 0 [stopA, stopB]) 0 ∧
      (2 ≤ ((writeRef (fun _ => []) 0 [stopA, stopB]) 0).length →
        (optimizeRouteH eltb ⊤ stopDistE (writeRef (fun _ => [])
          0 [stopA, stopB]) 1 0 none).2.2 ≠ 0) ∧
      (((writeRef (fun _ => []) 0 [stopA, stopB]) 0).length ≤ 1 →
        (optimizeRouteH eltb ⊤ stopDistE (writeRef (fun _ => [])
          0 [stopA, stopB]) 1 0 none).2.2 = 0) :=
  optimizeRoute_no_mutation EReal eltb ⊤ stopDistE
    (writeRef (fun _ => []) 0 [stopA, stopB]) 1 0 none (by norm_num)
